/-
  Verification of the emdash PTY session supervisor against its
  natural-language specification.

  The development shallowly embeds the relevant parts of the source:
    * src/main/utils/wslPath.ts         — WSL UNC path detection/conversion
    * src/main/services/ptyIpc.ts       — session registry, run tracker,
                                          finalize-once semantics, exit
                                          handlers and the respawn callback
    * shell quoting (shellEscape.ts) and the provider CLI argument builder
      (ptyManager.ts), which are not among the provided sources and are
      therefore modelled from the specification (marked as such).

  JavaScript `Map`/`Set` state is modelled with association lists and lists
  whose delete operation removes every matching entry (set semantics).
  Machine-visible effects (telemetry captures, notifications, IPC sends,
  writes to a process handle) are recorded as an append-only event list.
-/
import Mathlib

namespace Emdash

/-! ## Association-list helpers (JS `Map` / `Set` semantics) -/

def lookupA {α : Type} (m : List (String × α)) (k : String) : Option α :=
  match m with
  | [] => none
  | (k', v) :: rest => if k' = k then some v else lookupA rest k

def eraseA {α : Type} (m : List (String × α)) (k : String) : List (String × α) :=
  m.filter (fun e => e.1 != k)

def setA {α : Type} (m : List (String × α)) (k : String) (v : α) : List (String × α) :=
  (k, v) :: eraseA m k

def setDel (l : List String) (k : String) : List String :=
  l.filter (fun x => x != k)

def setAdd (l : List String) (k : String) : List String :=
  if l.contains k then l else k :: l

/-! ## WSL path utilities (src/main/utils/wslPath.ts)

The regular expression
  `/^[\\/]{2}(?:wsl\$|wsl\.localhost)[\\/]([^\\/]+)/i`
is embedded as an executable matcher on character lists:
two slash characters, a case-insensitive literal host (`wsl$` or
`wsl.localhost`), one slash character, then a maximal non-empty run of
non-slash characters (the distro, capture group 1). -/

def isSlash (c : Char) : Bool := c == '\\' || c == '/'

/-- ASCII lower-casing, matching the case folding `/i` performs on the
ASCII-only literals of the WSL regex. -/
def lowerAscii (c : Char) : Char :=
  if 'A' ≤ c ∧ c ≤ 'Z' then Char.ofNat (c.toNat + 32) else c

/-- The literal `wsl$` of the regex alternation, lower-cased. -/
def wslDollar : List Char := ['w', 's', 'l', '$']

/-- The literal `wsl.localhost` of the regex alternation, lower-cased. -/
def wslLocalhost : List Char := ['w', 's', 'l', '.', 'l', 'o', 'c', 'a', 'l', 'h', 'o', 's', 't']

/-- Match a lower-cased literal case-insensitively against the front of the
input; return the remaining input on success. -/
def matchCI : List Char → List Char → Option (List Char)
  | [], s => some s
  | _ :: _, [] => none
  | p :: ps, c :: cs => if lowerAscii c = p then matchCI ps cs else none

/-- After the host literal: one slash, then the distro (maximal non-empty
run of non-slash characters); returns `(distro, rest-after-match)`. -/
def wslAfterHost (tail : List Char) : Option (List Char × List Char) :=
  match tail with
  | [] => none
  | s3 :: t =>
    if isSlash s3 then
      let distro := t.takeWhile (fun c => !(isSlash c))
      if distro.isEmpty then none
      else some (distro, t.dropWhile (fun c => !(isSlash c)))
    else none

/-- The anchored match of `WSL_UNC_RE` on a character list: on success
returns the distro (group 1) and the input remaining after the whole match
(`m[0]`). The regex alternatives `wsl$` and `wsl.localhost` differ at their
fourth character, so first-match semantics needs no backtracking. -/
def wslUncMatch (p : List Char) : Option (List Char × List Char) :=
  match p with
  | c1 :: c2 :: rest =>
    if isSlash c1 && isSlash c2 then
      match matchCI wslDollar rest with
      | some tail => wslAfterHost tail
      | none =>
        match matchCI wslLocalhost rest with
        | some tail => wslAfterHost tail
        | none => none
    else none
  | _ => none

/-- `isWslPath` from wslPath.ts: `WSL_UNC_RE.test(p)`. -/
def isWslPath (p : String) : Bool :=
  (wslUncMatch p.data).isSome

/-- `getWslDistro` from wslPath.ts: group 1 of the match, or `null`. -/
def getWslDistro (p : String) : Option String :=
  (wslUncMatch p.data).map (fun x => String.mk x.1)

/-- `toWslPosixPath` from wslPath.ts. The source throws for non-WSL paths,
embedded here as `Option`: everything after the match has its backslashes
replaced by `/`, and an empty remainder becomes `/`. -/
def toWslPosixPath? (p : String) : Option String :=
  (wslUncMatch p.data).map (fun x =>
    let posix := x.2.map (fun c => if c = '\\' then '/' else c)
    if posix.isEmpty then "/" else String.mk posix)

/-- `toWindowsUncPath` from wslPath.ts:
`'\\\\wsl$\\' + distro + posixPath.replace(/\//g, '\\')`. -/
def toWindowsUncPath (distro posixPath : String) : String :=
  "\\\\wsl$\\" ++ distro ++ String.mk (posixPath.data.map (fun c => if c = '/' then '\\' else c))

/-! ## Shell quoting (C9)

`quoteShellArg` (src/main/utils/shellEscape.ts) is imported by ptyIpc.ts and
sshIpc.ts but the module itself is not among the provided sources; it is
modelled from the spec below. `wslExec` (wslPath.ts, which is in the
sources) embeds a command into `sh -c '...'` after escaping single quotes
the same way; its escape step is embedded here as `wslEscapeCmd`.

To state that the quoted form survives POSIX shell parsing unchanged, we
embed the relevant fragment of POSIX shell word splitting: backslash
escapes, single-quoted literals, blank-separated fields. Unquoted
occurrences of structural or expansion metacharacters (`;`, `&`, `|`,
`<`, `>`, `(`, `)`, backtick, `$`, double quote, newline) make the parse
fail (`none`), so a `some [w]` result means the input parses as exactly
one word with no live metacharacter. -/

/-- Characters that, unquoted, alter POSIX command structure or trigger
expansion. -/
def shMeta (c : Char) : Bool :=
  c == ';' || c == '&' || c == '|' || c == '<' || c == '>' ||
  c == '(' || c == ')' || c == '`' || c == '$' || c == '"' || c == '\n'

/-- Blanks that separate fields. -/
def shBlank (c : Char) : Bool := c == ' ' || c == '\t'

/-- Parser mode: unquoted, inside single quotes, or immediately after an
unquoted backslash (the next character is taken literally). -/
inductive ShMode
  | norm
  | squote
  | esc
deriving Repr, DecidableEq

/-- POSIX field splitting over the fragment described above.
`cur = some w` means a word `w` is being accumulated (so `''` yields an
empty field); an unterminated quote or dangling escape fails. -/
def shSplitAux : ShMode → Option (List Char) → List (List Char) → List Char →
    Option (List (List Char))
  | ShMode.norm, cur, acc, [] => some (acc ++ cur.toList)
  | ShMode.squote, _, _, [] => none
  | ShMode.esc, _, _, [] => none
  | ShMode.norm, cur, acc, c :: rest =>
    if c = '\'' then shSplitAux ShMode.squote (some (cur.getD [])) acc rest
    else if c = '\\' then shSplitAux ShMode.esc (some (cur.getD [])) acc rest
    else if shBlank c then
      match cur with
      | some w => shSplitAux ShMode.norm none (acc ++ [w]) rest
      | none => shSplitAux ShMode.norm none acc rest
    else if shMeta c then none
    else shSplitAux ShMode.norm (some (cur.getD [] ++ [c])) acc rest
  | ShMode.squote, cur, acc, c :: rest =>
    if c = '\'' then shSplitAux ShMode.norm cur acc rest
    else shSplitAux ShMode.squote (some ((cur.getD []) ++ [c])) acc rest
  | ShMode.esc, cur, acc, c :: rest =>
    shSplitAux ShMode.norm (some (cur.getD [] ++ [c])) acc rest

/-- Split a character list into POSIX shell fields (relevant fragment). -/
def shFields (s : List Char) : Option (List (List Char)) :=
  shSplitAux ShMode.norm none [] s

/-- The `'` → `'\''` rewriting shared by both quoting sites. -/
def escSq : List Char → List Char
  | [] => []
  | c :: r => if c = '\'' then '\'' :: '\\' :: '\'' :: '\'' :: escSq r else c :: escSq r

/-- Modelled from the spec: `quoteShellArg` (src/main/utils/shellEscape.ts,
not among the provided sources) wraps a token in single quotes, escaping
embedded single quotes as `'\''` (the technique validated by the
repository's quoting test). -/
def quoteShellArg (s : String) : String :=
  String.mk ('\'' :: escSq s.data ++ ['\''])

/-- The escape step of `wslExec` (wslPath.ts):
`command.replace(/'/g, "'\\''")`, whose result the source embeds between
single quotes inside `sh -c '...'`. -/
def wslEscapeCmd (command : String) : String :=
  String.mk (escSq command.data)

/-! ## Provider CLI argument builder (C8)

`buildProviderCliArgs` and `parseShellArgs` live in ptyManager.ts, which is
not among the provided sources; they are modelled from the spec (§4.2,
token order) and cross-checked against the repository's mock of them in
src/test/main (same gating and order). -/

/-- Whitespace, as in the splitting regex `/\s+/`. -/
def isWs (c : Char) : Bool := c == ' ' || c == '\t' || c == '\n' || c == '\r'

def wsTokensAux : List Char → List Char → List String
  | [], cur => if cur.isEmpty then [] else [String.mk cur.reverse]
  | c :: rest, cur =>
    if isWs c then
      if cur.isEmpty then wsTokensAux rest []
      else String.mk cur.reverse :: wsTokensAux rest []
    else wsTokensAux rest (c :: cur)

/-- Modelled from the spec: `parseShellArgs` (ptyManager.ts, not among the
provided sources) splits a flag string into its whitespace-separated
tokens (trim, split on whitespace runs, drop empties — as the repository's
mock of it does). -/
def parseShellArgs (s : String) : List String :=
  wsTokensAux s.data []

/-- `trim` on the character-list representation (strip leading and
trailing whitespace). -/
def strTrim (s : String) : String :=
  String.mk (((s.data.dropWhile isWs).reverse.dropWhile isWs).reverse)

structure ProviderCliOpts where
  resume : Bool := false
  resumeFlag : Option String := none
  defaultArgs : List String := []
  autoApprove : Bool := false
  autoApproveFlag : Option String := none
  initialPrompt : Option String := none
  initialPromptFlag : Option String := none
  useKeystrokeInjection : Bool := false
deriving Repr, DecidableEq

/-- Modelled from the spec: `buildProviderCliArgs` (ptyManager.ts, not among
the provided sources). Fixed token order per §4.2: resume flag tokens (only
if resuming and a resume flag is supported), then default args, then the
auto-approve flag tokens (only if requested and supported), then the
initial-prompt flag tokens and the trimmed prompt text as the final token
(only when a prompt flag field is configured, the provider does not use
keystroke injection, and the prompt is non-blank) — the gating the
repository's mock of the builder also implements. -/
def buildProviderCliArgs (o : ProviderCliOpts) : List String :=
  let resumeTokens :=
    if o.resume then
      match o.resumeFlag with
      | some f => parseShellArgs f
      | none => []
    else []
  let approveTokens :=
    if o.autoApprove then
      match o.autoApproveFlag with
      | some f => parseShellArgs f
      | none => []
    else []
  let promptTokens :=
    match o.initialPromptFlag, o.initialPrompt with
    | some pf, some pr =>
      if !o.useKeystrokeInjection ∧ strTrim pr ≠ "" then
        parseShellArgs pf ++ [strTrim pr]
      else []
    | _, _ => []
  resumeTokens ++ o.defaultArgs ++ approveTokens ++ promptTokens

/-! ## PTY session supervisor state (src/main/services/ptyIpc.ts)

Module-level mutable maps/sets of ptyIpc.ts become fields of `St`.
The ptyManager registry (`getPty`/`removePtyRecord`/`killPty`), which is
not among the provided sources, is modelled per the spec's Session
Registry: an id → process-handle map, with fresh handles drawn from an
arena counter `nextHandle` (spec §9 suggests exactly this handle-identity
modelling). Observable effects are appended to `events`. -/

/-- Externally observable effects. -/
inductive Ev
  | runStart (provider : String)
  | runFinish (provider : String) (outcome : String) (duration : Option Nat)
  | notif (providerName : String)
  | exitSent (wc : Nat) (id : String) (exitCode : Option Int) (signal : Option Int)
  | dataSent (wc : Nat) (id : String) (data : String)
  | started (wc : Nat) (id : String)
  | wrote (handle : Nat) (data : String)
deriving Repr, DecidableEq

/-- The four termination causes of ptyIpc.ts (`FinishCause`). -/
inductive FinishCause
  | process_exit
  | app_quit
  | owner_destroyed
  | manual_kill
deriving Repr, DecidableEq

structure St where
  /-- ptyManager's session registry: id → current process handle. -/
  ptys : List (String × Nat) := []
  /-- Arena counter: handles ever allocated are below this. -/
  nextHandle : Nat := 0
  /-- `owners`: id → owning WebContents id. -/
  owners : List (String × Nat) := []
  /-- `listeners`: ids with data/exit callbacks attached. -/
  listeners : List String := []
  /-- WebContents ids that have been destroyed (`wc.isDestroyed()`). -/
  destroyedWc : List Nat := []
  /-- `ptyDataBuffers`: id → accumulated output. -/
  dataBuffers : List (String × String) := []
  /-- `ptyDataTimers`: ids with an armed flush timer. -/
  dataTimers : List String := []
  /-- `providerPtyTimers`: run key → start timestamp. -/
  providerPtyTimers : List (String × Nat) := []
  /-- `ptyProviderMap`: id → provider id. -/
  ptyProviderMap : List (String × String) := []
  /-- `finalizedPtys`: ids whose run accounting already happened. -/
  finalizedPtys : List String := []
  /-- `isAppQuitting` flag. -/
  isAppQuitting : Bool := false
  /-- `settings.notifications.enabled`. -/
  notifEnabled : Bool := true
  /-- `Notification.isSupported()`. -/
  notifSupported : Bool := true
  /-- whether any BrowserWindow is focused. -/
  anyWindowFocused : Bool := false
  /-- append-only log of observable effects. -/
  events : List Ev := []
deriving Repr, DecidableEq

/-- Modelled from the spec: the provider registry (shared/providers,
not among the provided sources). `PROVIDER_IDS` per the repository's
tests. -/
def providerIds : List String := ["codex", "claude"]

/-- Modelled from the spec: `getProvider(id)?.name ?? id` (shared provider
registry, not among the provided sources); the name only labels the
notification. -/
def providerDisplayName (p : String) : String :=
  if p = "codex" then "Codex" else if p = "claude" then "Claude Code" else p

/-- Modelled from the spec: `parsePtyId` (shared/ptyId.ts, not among the
provided sources). A session id is provider id + context marker +
task-scoped suffix, colon-separated (spec §3; e.g. `claude:main:task-1`). -/
def splitColsAux : List Char → List Char → List String
  | [], cur => [String.mk cur.reverse]
  | c :: rest, cur =>
    if c = ':' then String.mk cur.reverse :: splitColsAux rest []
    else splitColsAux rest (c :: cur)

def parsePtyId (id : String) : Option (String × String × String) :=
  match splitColsAux id.data [] with
  | [p, marker, suffix] =>
    if providerIds.contains p then some (p, marker, suffix) else none
  | _ => none

/-- `parseProviderPty` (ptyIpc.ts): provider id and task id (the suffix). -/
def parseProviderPty (id : String) : Option (String × String) :=
  (parsePtyId id).map (fun x => (x.1, x.2.2))

/-- `providerRunKey` (ptyIpc.ts). -/
def providerRunKey (providerId taskId : String) : String :=
  providerId ++ ":" ++ taskId

/-- Provider/run-key resolution shared by the finish path of
`maybeMarkProviderFinish`: the stored `ptyProviderMap` entry wins
(multi-agent mode, key `provider:id`), else the id is parsed
(single-agent mode, key `provider:taskId`). -/
def resolveProviderKey (s : St) (id : String) : Option (String × String) :=
  match lookupA s.ptyProviderMap id with
  | some p => some (p, p ++ ":" ++ id)
  | none =>
    match parseProviderPty id with
    | some pt => some (pt.1, providerRunKey pt.1 pt.2)
    | none => none

/-- `showCompletionNotification` (ptyIpc.ts): emit a notification only if
notifications are enabled, supported, and no window is focused. -/
def showCompletionNotification (s : St) (providerName : String) : St :=
  if !s.notifEnabled then s
  else if !s.notifSupported then s
  else if s.anyWindowFocused then s
  else { s with events := s.events ++ [Ev.notif providerName] }

/-- `maybeMarkProviderFinish` (ptyIpc.ts lines 992–1040): idempotent
per-id finalize. `exitCode = none` covers JS `null`/`undefined`. -/
def maybeMarkProviderFinish (s : St) (id : String) (exitCode : Option Int)
    (signal : Option Int) (cause : FinishCause) (now : Nat) : St :=
  if s.finalizedPtys.contains id then s
  else
    let s := { s with finalizedPtys := setAdd s.finalizedPtys id }
    match resolveProviderKey s id with
    | none => s
    | some (providerId, key) =>
      let started := lookupA s.providerPtyTimers key
      let s := { s with
        providerPtyTimers := eraseA s.providerPtyTimers key,
        ptyProviderMap := eraseA s.ptyProviderMap id }
      match exitCode with
      | none => s
      | some code =>
        let duration := started.map (fun st => now - st)
        let wasSignaled := signal.isSome
        let outcome := if code ≠ 0 ∧ !wasSignaled then "error" else "ok"
        let s := { s with events := s.events ++ [Ev.runFinish providerId outcome duration] }
        if cause = FinishCause.process_exit ∧ code = 0 then
          showCompletionNotification s (providerDisplayName providerId)
        else s

/-- `maybeMarkProviderStart` (ptyIpc.ts lines 960–990). -/
def maybeMarkProviderStart (s : St) (id : String) (providerId : Option String)
    (now : Nat) : St :=
  let s := { s with finalizedPtys := setDel s.finalizedPtys id }
  match providerId with
  | some p =>
    if providerIds.contains p then
      let s := { s with ptyProviderMap := setA s.ptyProviderMap id p }
      let key := p ++ ":" ++ id
      if (lookupA s.providerPtyTimers key).isSome then s
      else { s with
        providerPtyTimers := setA s.providerPtyTimers key now,
        events := s.events ++ [Ev.runStart p] }
    else startFromStored s id now
  | none => startFromStored s id now
where
  startFromStored (s : St) (id : String) (now : Nat) : St :=
    match lookupA s.ptyProviderMap id with
    | some p =>
      let key := p ++ ":" ++ id
      if (lookupA s.providerPtyTimers key).isSome then s
      else { s with
        providerPtyTimers := setA s.providerPtyTimers key now,
        events := s.events ++ [Ev.runStart p] }
    | none =>
      match parseProviderPty id with
      | none => s
      | some pt =>
        let key := providerRunKey pt.1 pt.2
        if (lookupA s.providerPtyTimers key).isSome then s
        else { s with
          providerPtyTimers := setA s.providerPtyTimers key now,
          events := s.events ++ [Ev.runStart pt.1] }

/-! ## IPC send, output coalescer, registry operations -/

/-- `safeSendToOwner` (ptyIpc.ts): look up the owner and send unless the
WebContents is destroyed. Sending the per-id exit payload is recorded as
an `exitSent` event. -/
def safeSendExit (s : St) (id : String) (exitCode signal : Option Int) : St :=
  match lookupA s.owners id with
  | none => s
  | some wc =>
    if s.destroyedWc.contains wc then s
    else { s with events := s.events ++ [Ev.exitSent wc id exitCode signal] }

/-- `flushPtyData` (ptyIpc.ts): deliver and drop any buffered output. -/
def flushPtyData (s : St) (id : String) : St :=
  match lookupA s.dataBuffers id with
  | none => s
  | some buf =>
    let s := { s with dataBuffers := eraseA s.dataBuffers id }
    match lookupA s.owners id with
    | none => s
    | some wc =>
      if s.destroyedWc.contains wc then s
      else { s with events := s.events ++ [Ev.dataSent wc id buf] }

/-- `clearPtyData` (ptyIpc.ts): drop the flush timer and the buffer. -/
def clearPtyData (s : St) (id : String) : St :=
  { s with dataTimers := setDel s.dataTimers id, dataBuffers := eraseA s.dataBuffers id }

/-- `removePtyRecord` (ptyManager, not among the provided sources):
modelled from the spec as deleting the id's registry record. -/
def removePtyRecord (s : St) (id : String) : St :=
  { s with ptys := eraseA s.ptys id }

/-- Modelled from the spec: ptyManager's `kill(id)` — best-effort process
termination plus removal of the registry record (spec §4.3). -/
def killPty (s : St) (id : String) : St :=
  { s with ptys := eraseA s.ptys id }

/-- Modelled from the spec: ptyManager's `writePty(id, data)` delivers the
input to the id's current process handle. -/
def writePty (s : St) (id : String) (data : String) : St :=
  match lookupA s.ptys id with
  | none => s
  | some h => { s with events := s.events ++ [Ev.wrote h data] }

/-! ## Exit handlers (closures attached by ptyIpc.ts)

Each handler closure captures the process handle `proc` it was attached
for; firing the handler is applying the function below. -/

/-- The `proc.onExit` handler attached by the `pty:start` path
(ptyIpc.ts lines 509–526): flush/clear buffered output, then do nothing
further unless this PTY is still the current instance for the id. -/
def startOnExit (proc : Nat) (id : String) (exitCode signal : Option Int)
    (now : Nat) (s : St) : St :=
  let s := flushPtyData s id
  let s := clearPtyData s id
  if lookupA s.ptys id ≠ some proc then s
  else
    let s := safeSendExit s id exitCode signal
    let s := maybeMarkProviderFinish s id exitCode signal
      (if s.isAppQuitting then FinishCause.app_quit else FinishCause.process_exit) now
    let s := { s with owners := eraseA s.owners id, listeners := setDel s.listeners id }
    removePtyRecord s id

/-- The `proc.onExit` handler attached by the local `pty:startDirect` path
(ptyIpc.ts lines 880–903): finalize first, then skip all registry cleanup
when the exiting PTY has already been replaced by a newer instance. -/
def directOnExit (proc : Nat) (usedFallback : Bool) (id : String)
    (exitCode signal : Option Int) (now : Nat) (s : St) : St :=
  let s := flushPtyData s id
  let s := clearPtyData s id
  let s := maybeMarkProviderFinish s id exitCode signal
    (if s.isAppQuitting then FinishCause.app_quit else FinishCause.process_exit) now
  match lookupA s.ptys id with
  | some current =>
    if current ≠ proc then s
    else directOnExitCleanup usedFallback id exitCode signal s
  | none => directOnExitCleanup usedFallback id exitCode signal s
where
  directOnExitCleanup (usedFallback : Bool) (id : String)
      (exitCode signal : Option Int) (s : St) : St :=
    let s := safeSendExit s id exitCode signal
    let s := { s with
      owners := if usedFallback then eraseA s.owners id else s.owners,
      listeners := setDel s.listeners id }
    removePtyRecord s id

/-- The `proc.onExit` handler the respawn callback attaches to the
replacement shell (ptyIpc.ts lines 286–293): plain cleanup, with no
staleness check and no finalize. -/
def respawnOnExit (id : String) (exitCode signal : Option Int) (s : St) : St :=
  let s := flushPtyData s id
  let s := clearPtyData s id
  let s := safeSendExit s id exitCode signal
  let s := { s with owners := eraseA s.owners id, listeners := setDel s.listeners id }
  removePtyRecord s id

/-- The `setOnDirectCliExit` callback (ptyIpc.ts lines 260–305): when the
exited direct-CLI session still has an owner, spawn a replacement shell
under the same id (a fresh handle from the arena), re-attach listeners and
notify the owner that the session is ready again; when the spawn fails,
clean up the dead record via `killPty`. `spawnOk` stands for whether
`startPty` produced a process. -/
def onDirectCliExitCb (id : String) (spawnOk : Bool) (s : St) : St :=
  match lookupA s.owners id with
  | none => s
  | some wc =>
    if spawnOk then
      let h := s.nextHandle
      let s := { s with ptys := setA s.ptys id h, nextHandle := h + 1 }
      let s := { s with listeners := setAdd (setDel s.listeners id) id }
      if s.destroyedWc.contains wc then s
      else { s with events := s.events ++ [Ev.started wc id] }
    else killPty s id

/-- One direct-CLI exit event end to end: ptyManager's wiring invokes the
respawn callback for the exiting process, then the `pty:startDirect` exit
handler (attached with `usedFallback = false`) runs with its staleness
check. -/
def directCliExitStep (id : String) (spawnOk : Bool) (procOld : Nat)
    (exitCode signal : Option Int) (now : Nat) (s : St) : St :=
  directOnExit procOld false id exitCode signal now (onDirectCliExitCb id spawnOk s)

/-- The registry view of a state: session records, owner bindings and
listener flags (the shared mutable maps of spec §5). -/
def registryOf (s : St) : List (String × Nat) × List (String × Nat) × List String :=
  (s.ptys, s.owners, s.listeners)

/-! ## Event counting helpers -/

def Ev.isRunFinish : Ev → Bool
  | Ev.runFinish _ _ _ => true
  | _ => false

def Ev.isNotif : Ev → Bool
  | Ev.notif _ => true
  | _ => false

def Ev.isAccounting (e : Ev) : Bool := e.isRunFinish || e.isNotif

def countRunFinish (l : List Ev) : Nat := (l.filter Ev.isRunFinish).length

def countNotif (l : List Ev) : Nat := (l.filter Ev.isNotif).length

/-! ## Concrete states used by witnesses and counterexamples -/

def stC1 : St := { ptyProviderMap := [("claude:main:t1", "claude")] }

def stC5 : St := { providerPtyTimers := [("claude:t1", 3)] }

def stC10 : St :=
  { ptys := [("codex:main:t7", 4)]
    nextHandle := 5
    owners := [("codex:main:t7", 2)]
    listeners := ["codex:main:t7"]
    events := [Ev.runFinish "codex" "ok" (some 3)] }

def stC3 : St :=
  { ptys := [("codex:main:t3", 4)]
    nextHandle := 5
    owners := [("codex:main:t3", 2)]
    listeners := ["codex:main:t3"] }

def stC4 : St :=
  { ptys := [("codex:main:t1", 5)]
    nextHandle := 6
    owners := [("codex:main:t1", 1)]
    listeners := ["codex:main:t1"] }

/-! ## Helper lemmas -/

theorem lookupA_eraseA {α : Type} (m : List (String × α)) (k : String) :
    lookupA (eraseA m k) k = none := by
  induction m with
  | nil => rfl
  | cons e rest ih =>
    simp only [eraseA, List.filter_cons] at ih ⊢
    by_cases h : e.1 = k
    · simpa [h] using ih
    · simpa [lookupA, bne_iff_ne, h] using ih

theorem lookupA_setA {α : Type} (m : List (String × α)) (k : String) (v : α) :
    lookupA (setA m k v) k = some v := by
  simp [setA, lookupA]

theorem not_mem_setDel (l : List String) (k : String) : k ∉ setDel l k := by
  intro h
  have := List.mem_filter.mp h
  simp [bne_iff_ne] at this


theorem mem_setAdd (l : List String) (k : String) : k ∈ setAdd l k := by
  unfold setAdd
  by_cases h : l.contains k = true
  · rw [if_pos h]; simpa using h
  · rw [if_neg h]; exact List.mem_cons_self k l

theorem countRunFinish_append (l l2 : List Ev) :
    countRunFinish (l ++ l2) = countRunFinish l + countRunFinish l2 := by
  simp [countRunFinish, List.filter_append]

theorem countNotif_append (l l2 : List Ev) :
    countNotif (l ++ l2) = countNotif l + countNotif l2 := by
  simp [countNotif, List.filter_append]

theorem showNotif_events (s : St) (n : String) :
    (showCompletionNotification s n).events = s.events ++
      (if s.notifEnabled && s.notifSupported && !s.anyWindowFocused
       then [Ev.notif n] else []) := by
  unfold showCompletionNotification
  split_ifs <;> simp_all

theorem showNotif_fields (s : St) (n : String) :
    (showCompletionNotification s n).ptys = s.ptys ∧
    (showCompletionNotification s n).owners = s.owners ∧
    (showCompletionNotification s n).listeners = s.listeners ∧
    (showCompletionNotification s n).providerPtyTimers = s.providerPtyTimers ∧
    (showCompletionNotification s n).ptyProviderMap = s.ptyProviderMap ∧
    (showCompletionNotification s n).finalizedPtys = s.finalizedPtys ∧
    (showCompletionNotification s n).nextHandle = s.nextHandle ∧
    (showCompletionNotification s n).destroyedWc = s.destroyedWc := by
  unfold showCompletionNotification
  split_ifs <;> simp

theorem showNotif_struct (s : St) (n : String) :
    showCompletionNotification s n =
      { s with events := (showCompletionNotification s n).events } := by
  unfold showCompletionNotification
  split_ifs <;> rfl

/-- `flushPtyData` only touches the data buffers and appends non-accounting
events. -/
theorem flushPtyData_fields (s : St) (id : String) :
    (flushPtyData s id).ptys = s.ptys
    ∧ (flushPtyData s id).owners = s.owners
    ∧ (flushPtyData s id).listeners = s.listeners
    ∧ (flushPtyData s id).nextHandle = s.nextHandle
    ∧ (flushPtyData s id).destroyedWc = s.destroyedWc
    ∧ (flushPtyData s id).providerPtyTimers = s.providerPtyTimers
    ∧ (flushPtyData s id).ptyProviderMap = s.ptyProviderMap
    ∧ (flushPtyData s id).finalizedPtys = s.finalizedPtys
    ∧ (flushPtyData s id).dataTimers = s.dataTimers
    ∧ (flushPtyData s id).isAppQuitting = s.isAppQuitting
    ∧ (flushPtyData s id).events.filter Ev.isAccounting = s.events.filter Ev.isAccounting := by
  unfold flushPtyData
  rcases hb : lookupA s.dataBuffers id with _ | buf
  · simp
  · simp only []
    rcases ho : lookupA s.owners id with _ | wc
    · simp [ho]
    · simp only [ho]
      split_ifs <;>
        simp [List.filter_append, Ev.isAccounting, Ev.isRunFinish, Ev.isNotif]

theorem safeSendExit_fields (s : St) (id : String) (ec sig : Option Int) :
    (safeSendExit s id ec sig).ptys = s.ptys
    ∧ (safeSendExit s id ec sig).owners = s.owners
    ∧ (safeSendExit s id ec sig).listeners = s.listeners
    ∧ (safeSendExit s id ec sig).nextHandle = s.nextHandle
    ∧ (safeSendExit s id ec sig).destroyedWc = s.destroyedWc
    ∧ (safeSendExit s id ec sig).events.filter Ev.isAccounting
        = s.events.filter Ev.isAccounting := by
  unfold safeSendExit
  rcases ho : lookupA s.owners id with _ | wc
  · simp
  · simp only []
    split_ifs <;>
      simp [List.filter_append, Ev.isAccounting, Ev.isRunFinish, Ev.isNotif]

theorem safeSendExit_delivers (s : St) (id : String) (ec sig : Option Int) (wc : Nat)
    (h : lookupA s.owners id = some wc) (hd : wc ∉ s.destroyedWc) :
    Ev.exitSent wc id ec sig ∈ (safeSendExit s id ec sig).events := by
  unfold safeSendExit
  rw [h]
  simp only []
  rw [if_neg (by simpa using hd)]
  simp

/-- `maybeMarkProviderFinish` never mutates the registry (session records,
owner bindings, listener flags) nor the coalescer state. -/
theorem finish_registry (s : St) (id : String) (ec sig : Option Int)
    (c : FinishCause) (now : Nat) :
    (maybeMarkProviderFinish s id ec sig c now).ptys = s.ptys
    ∧ (maybeMarkProviderFinish s id ec sig c now).owners = s.owners
    ∧ (maybeMarkProviderFinish s id ec sig c now).listeners = s.listeners
    ∧ (maybeMarkProviderFinish s id ec sig c now).nextHandle = s.nextHandle
    ∧ (maybeMarkProviderFinish s id ec sig c now).destroyedWc = s.destroyedWc
    ∧ (maybeMarkProviderFinish s id ec sig c now).dataBuffers = s.dataBuffers
    ∧ (maybeMarkProviderFinish s id ec sig c now).dataTimers = s.dataTimers
    ∧ (maybeMarkProviderFinish s id ec sig c now).isAppQuitting = s.isAppQuitting := by
  unfold maybeMarkProviderFinish
  by_cases h : s.finalizedPtys.contains id = true
  · rw [if_pos h]; simp
  · rw [if_neg h]
    rcases hr : resolveProviderKey { s with finalizedPtys := setAdd s.finalizedPtys id } id with
      _ | ⟨p, key⟩
    · simp [hr]
    · simp only [hr]
      rcases ec with _ | code
      · simp
      · simp only []
        split_ifs <;> (try rw [showNotif_struct]) <;> simp

/-- After any `maybeMarkProviderFinish` call, the id is in the finalized
set. -/
theorem finish_finalized (s : St) (id : String) (ec sig : Option Int)
    (c : FinishCause) (now : Nat) :
    id ∈ (maybeMarkProviderFinish s id ec sig c now).finalizedPtys := by
  unfold maybeMarkProviderFinish
  by_cases h : s.finalizedPtys.contains id = true
  · rw [if_pos h]; simpa using h
  · rw [if_neg h]
    rcases hr : resolveProviderKey { s with finalizedPtys := setAdd s.finalizedPtys id } id with
      _ | ⟨p, key⟩
    · simpa [hr] using mem_setAdd s.finalizedPtys id
    · rcases ec with _ | code
      · simpa [hr] using mem_setAdd s.finalizedPtys id
      · simp only [hr]
        split_ifs <;>
          simpa [(showNotif_fields _ _).2.2.2.2.2.1] using mem_setAdd s.finalizedPtys id

theorem finish_noop_of_finalized (t : St) (id : String) (ec sig : Option Int)
    (c : FinishCause) (now : Nat) (h : id ∈ t.finalizedPtys) :
    maybeMarkProviderFinish t id ec sig c now = t := by
  unfold maybeMarkProviderFinish
  rw [if_pos (by simpa using h)]

/-- C1: for every session id, finalize accounting runs at most once: a
second `maybeMarkProviderFinish` for the same id (with any arguments) is a
no-op on the whole state; and when the id was not yet finalized, the
provider resolves, and a numeric exit code is present, the first call
emits exactly one run-finish accounting event. -/
theorem claim_C1_finish_once (s : St) (id : String)
    (ec ec2 sig sig2 : Option Int) (c c2 : FinishCause) (now now2 : Nat) (k : Int) :
    maybeMarkProviderFinish (maybeMarkProviderFinish s id ec sig c now) id ec2 sig2 c2 now2
      = maybeMarkProviderFinish s id ec sig c now
    ∧ (id ∉ s.finalizedPtys →
        (resolveProviderKey s id).isSome = true →
        countRunFinish (maybeMarkProviderFinish s id (some k) sig c now).events
          = countRunFinish s.events + 1) := by
  constructor
  · exact finish_noop_of_finalized _ id ec2 sig2 c2 now2 (finish_finalized s id ec sig c now)
  · intro h hres
    obtain ⟨⟨p, key⟩, hr⟩ := Option.isSome_iff_exists.mp hres
    have hr' : resolveProviderKey { s with finalizedPtys := setAdd s.finalizedPtys id } id
        = some (p, key) := hr
    unfold maybeMarkProviderFinish
    rw [if_neg (by simpa using h)]
    simp only [hr']
    split_ifs <;>
      simp [showNotif_events, countRunFinish_append, countRunFinish,
        Ev.isRunFinish, List.filter_append, apply_ite (List.filter Ev.isRunFinish)]

theorem claim_C1_finish_once_witness :
    maybeMarkProviderFinish
        (maybeMarkProviderFinish stC1 "claude:main:t1" (some 0) none FinishCause.process_exit 7)
        "claude:main:t1" (some 0) none FinishCause.process_exit 7
      = maybeMarkProviderFinish stC1 "claude:main:t1" (some 0) none FinishCause.process_exit 7
    ∧ countRunFinish (maybeMarkProviderFinish stC1 "claude:main:t1" (some 0) none
        FinishCause.process_exit 7).events = countRunFinish stC1.events + 1 :=
  ⟨(claim_C1_finish_once stC1 "claude:main:t1" (some 0) (some 0) none none
      FinishCause.process_exit FinishCause.process_exit 7 7 0).1,
   (claim_C1_finish_once stC1 "claude:main:t1" (some 0) (some 0) none none
      FinishCause.process_exit FinishCause.process_exit 7 7 0).2 (by decide) (by decide)⟩

/-- C2: a completion notification can only come from a finalize whose
cause is natural process exit with a zero exit code: for every finalize
whose cause is application shutdown, owner teardown, or manual kill — or
whose exit code is not zero — the number of notification events is
unchanged. -/
theorem claim_C2_notif_only_clean_exit (s : St) (id : String) (ec sig : Option Int)
    (c : FinishCause) (now : Nat)
    (h : c ≠ FinishCause.process_exit ∨ ec ≠ some 0) :
    countNotif (maybeMarkProviderFinish s id ec sig c now).events = countNotif s.events := by
  unfold maybeMarkProviderFinish
  by_cases hg : s.finalizedPtys.contains id = true
  · rw [if_pos hg]
  · rw [if_neg hg]
    rcases hr : resolveProviderKey { s with finalizedPtys := setAdd s.finalizedPtys id } id with
      _ | ⟨p, key⟩
    · simp [hr]
    · rcases ec with _ | code
      · simp [hr]
      · simp only [hr]
        have hcond : ¬(c = FinishCause.process_exit ∧ code = 0) := by
          rcases h with h | h
          · exact fun hc => h hc.1
          · exact fun hc => h (by simp [hc.2])
        rw [if_neg hcond]
        simp [countNotif_append, countNotif, Ev.isNotif, List.filter_append]

theorem claim_C2_notif_only_clean_exit_witness :
    countNotif (maybeMarkProviderFinish stC1 "claude:main:t1" (some 0) none
        FinishCause.manual_kill 7).events = countNotif stC1.events :=
  claim_C2_notif_only_clean_exit stC1 "claude:main:t1" (some 0) none
    FinishCause.manual_kill 7 (Or.inl (by decide))

/-- C5: when no numeric exit code is available, finalize treats the run as
killed during cleanup: no event at all is emitted (no duration, no
outcome, no run-finish accounting), while the run timer for the key is
still cleared and the id becomes finalized. -/
theorem claim_C5_null_exit_code (s : St) (id : String) (sig : Option Int)
    (c : FinishCause) (now : Nat) (p key : String)
    (h : id ∉ s.finalizedPtys)
    (hr : resolveProviderKey s id = some (p, key)) :
    (maybeMarkProviderFinish s id none sig c now).events = s.events
    ∧ lookupA (maybeMarkProviderFinish s id none sig c now).providerPtyTimers key = none
    ∧ id ∈ (maybeMarkProviderFinish s id none sig c now).finalizedPtys := by
  have hr' : resolveProviderKey { s with finalizedPtys := setAdd s.finalizedPtys id } id
      = some (p, key) := hr
  unfold maybeMarkProviderFinish
  rw [if_neg (by simpa using h)]
  simp [hr', lookupA_eraseA, mem_setAdd]

/-- C10: after a successful respawn, the replacement shell's own exit
handler performs no finalize at all: it emits no accounting event (no
run-finish, no completion notification), removes the owner binding,
listener flag and registry record for the id, and still delivers the exit
event to the owner when one is bound and alive. -/
theorem claim_C10_respawn_exit_no_finalize (s : St) (id : String)
    (ec sig : Option Int) (wc : Nat) :
    (respawnOnExit id ec sig s).events.filter Ev.isAccounting
        = s.events.filter Ev.isAccounting
    ∧ lookupA (respawnOnExit id ec sig s).owners id = none
    ∧ id ∉ (respawnOnExit id ec sig s).listeners
    ∧ lookupA (respawnOnExit id ec sig s).ptys id = none
    ∧ (lookupA s.owners id = some wc → wc ∉ s.destroyedWc →
        Ev.exitSent wc id ec sig ∈ (respawnOnExit id ec sig s).events) := by
  obtain ⟨hfp, hfo, hfl, hfn, hfd, _, _, _, _, _, hfe⟩ := flushPtyData_fields s id
  obtain ⟨hsp, hso, hsl, hsn, hsd, hse⟩ :=
    safeSendExit_fields (clearPtyData (flushPtyData s id) id) id ec sig
  have hform : respawnOnExit id ec sig s =
      removePtyRecord
        { safeSendExit (clearPtyData (flushPtyData s id) id) id ec sig with
          owners := eraseA (safeSendExit (clearPtyData (flushPtyData s id) id) id ec sig).owners
            id,
          listeners := setDel
            (safeSendExit (clearPtyData (flushPtyData s id) id) id ec sig).listeners id } id :=
    rfl
  rw [hform]
  refine ⟨?_, ?_, ?_, ?_, ?_⟩
  · calc (safeSendExit (clearPtyData (flushPtyData s id) id) id ec sig).events.filter
          Ev.isAccounting
        = (clearPtyData (flushPtyData s id) id).events.filter Ev.isAccounting := hse
      _ = (flushPtyData s id).events.filter Ev.isAccounting := rfl
      _ = s.events.filter Ev.isAccounting := hfe
  · exact lookupA_eraseA _ id
  · exact not_mem_setDel _ id
  · exact lookupA_eraseA _ id
  · intro ho hd
    have ho2 : lookupA (clearPtyData (flushPtyData s id) id).owners id = some wc := by
      show lookupA (flushPtyData s id).owners id = some wc
      rw [hfo]; exact ho
    have hd2 : wc ∉ (clearPtyData (flushPtyData s id) id).destroyedWc := by
      show wc ∉ (flushPtyData s id).destroyedWc
      rw [hfd]; exact hd
    exact safeSendExit_delivers _ id ec sig wc ho2 hd2

/-- The flush → clear → finalize preamble shared by the exit handlers
never mutates the registry. -/
theorem chain_registry (s : St) (id id2 : String) (ec sig : Option Int)
    (c : FinishCause) (now : Nat) :
    (maybeMarkProviderFinish (clearPtyData (flushPtyData s id) id) id2 ec sig c now).ptys
        = s.ptys
    ∧ (maybeMarkProviderFinish (clearPtyData (flushPtyData s id) id) id2 ec sig c now).owners
        = s.owners
    ∧ (maybeMarkProviderFinish (clearPtyData (flushPtyData s id) id) id2 ec sig c now).listeners
        = s.listeners
    ∧ (maybeMarkProviderFinish (clearPtyData (flushPtyData s id) id) id2 ec sig c
        now).nextHandle = s.nextHandle
    ∧ (maybeMarkProviderFinish (clearPtyData (flushPtyData s id) id) id2 ec sig c
        now).destroyedWc = s.destroyedWc := by
  obtain ⟨hfp, hfo, hfl, hfn, hfd, _⟩ := flushPtyData_fields s id
  obtain ⟨hgp, hgo, hgl, hgn, hgd, _⟩ :=
    finish_registry (clearPtyData (flushPtyData s id) id) id2 ec sig c now
  refine ⟨?_, ?_, ?_, ?_, ?_⟩
  · rw [hgp]; exact hfp
  · rw [hgo]; exact hfo
  · rw [hgl]; exact hfl
  · rw [hgn]; exact hfn
  · rw [hgd]; exact hfd

/-- A successful respawn by the direct-CLI exit callback installs a fresh
handle for the id, bumps the arena counter, and leaves the owner binding
in place. -/
theorem cb_spawn_fields (s : St) (id : String) (wc : Nat)
    (ho : lookupA s.owners id = some wc) :
    (onDirectCliExitCb id true s).ptys = setA s.ptys id s.nextHandle
    ∧ (onDirectCliExitCb id true s).owners = s.owners
    ∧ (onDirectCliExitCb id true s).nextHandle = s.nextHandle + 1 := by
  unfold onDirectCliExitCb
  rw [ho]
  simp only []
  split_ifs <;> simp

theorem cb_no_owner (s : St) (id : String) (b : Bool)
    (ho : lookupA s.owners id = none) :
    onDirectCliExitCb id b s = s := by
  unfold onDirectCliExitCb
  rw [ho]

theorem cb_spawn_fail (s : St) (id : String) (wc : Nat)
    (ho : lookupA s.owners id = some wc) :
    onDirectCliExitCb id false s = killPty s id := by
  unfold onDirectCliExitCb
  rw [ho]
  rfl

theorem claim_C10_respawn_exit_no_finalize_witness :
    Ev.exitSent 2 "codex:main:t7" (some 0) none
      ∈ (respawnOnExit "codex:main:t7" (some 0) none stC10).events :=
  (claim_C10_respawn_exit_no_finalize stC10 "codex:main:t7" (some 0) none 2).2.2.2.2
    (by decide) (by decide)

/-- The cleanup tail of the direct-CLI exit handler always removes the
registry record and the listener flag; with `usedFallback = false` it
leaves the owner map untouched. -/
theorem cleanup_fields (uf : Bool) (id : String) (ec sig : Option Int) (s : St) :
    lookupA (directOnExit.directOnExitCleanup uf id ec sig s).ptys id = none
    ∧ id ∉ (directOnExit.directOnExitCleanup uf id ec sig s).listeners
    ∧ (directOnExit.directOnExitCleanup false id ec sig s).owners
        = (safeSendExit s id ec sig).owners := by
  unfold directOnExit.directOnExitCleanup
  exact ⟨lookupA_eraseA _ id, not_mem_setDel _ id, rfl⟩

/-- C3: an exit callback firing for a superseded handle performs no
registry mutation (session records, owner bindings and listener flags are
untouched); and after a direct-CLI exit triggers a successful respawn, the
id's current handle is the fresh one (different from the old handle), and
input written to the id reaches the new handle, never the old one. -/
theorem claim_C3_superseded_handle (s : St) (id : String) (proc hcur hOld wc : Nat)
    (uf : Bool) (ec sig : Option Int) (now : Nat) (d : String) :
    (lookupA s.ptys id = some hcur → hcur ≠ proc →
      registryOf (directOnExit proc uf id ec sig now s) = registryOf s)
    ∧ (lookupA s.ptys id = some hOld → hOld < s.nextHandle →
        lookupA s.owners id = some wc →
        lookupA (directCliExitStep id true hOld ec sig now s).ptys id = some s.nextHandle
        ∧ s.nextHandle ≠ hOld
        ∧ (writePty (directCliExitStep id true hOld ec sig now s) id d).events
            = (directCliExitStep id true hOld ec sig now s).events
              ++ [Ev.wrote s.nextHandle d]) := by
  constructor
  · intro hp hne
    unfold directOnExit
    simp only []
    obtain ⟨hrp, hro, hrl, _, _⟩ := chain_registry s id id ec sig
      (if (clearPtyData (flushPtyData s id) id).isAppQuitting then FinishCause.app_quit
       else FinishCause.process_exit) now
    have hl : lookupA (maybeMarkProviderFinish (clearPtyData (flushPtyData s id) id) id ec sig
        (if (clearPtyData (flushPtyData s id) id).isAppQuitting then FinishCause.app_quit
         else FinishCause.process_exit) now).ptys id = some hcur := by
      rw [hrp]; exact hp
    rw [hl]
    simp only []
    rw [if_pos hne]
    simp [registryOf, hrp, hro, hrl]
  · intro hp hlt ho
    have hcb := cb_spawn_fields s id wc ho
    have hnew : lookupA (onDirectCliExitCb id true s).ptys id = some s.nextHandle := by
      rw [hcb.1]; exact lookupA_setA s.ptys id s.nextHandle
    have hne : s.nextHandle ≠ hOld := Nat.ne_of_gt hlt
    have hstep : lookupA (directCliExitStep id true hOld ec sig now s).ptys id
        = some s.nextHandle := by
      unfold directCliExitStep directOnExit
      simp only []
      obtain ⟨hrp, _, _, _, _⟩ := chain_registry (onDirectCliExitCb id true s) id id ec sig
        (if (clearPtyData (flushPtyData (onDirectCliExitCb id true s) id) id).isAppQuitting
         then FinishCause.app_quit else FinishCause.process_exit) now
      have hl2 : lookupA (maybeMarkProviderFinish
          (clearPtyData (flushPtyData (onDirectCliExitCb id true s) id) id) id ec sig
          (if (clearPtyData (flushPtyData (onDirectCliExitCb id true s) id) id).isAppQuitting
           then FinishCause.app_quit else FinishCause.process_exit) now).ptys id
          = some s.nextHandle := by
        rw [hrp]; exact hnew
      rw [hl2]
      simp only []
      rw [if_pos hne]
      rw [hl2]
    refine ⟨hstep, hne, ?_⟩
    unfold writePty
    rw [hstep]

theorem claim_C3_superseded_handle_witness :
    registryOf (directOnExit 9 false "codex:main:t3" (some 130) none 0 stC3)
        = registryOf stC3
    ∧ lookupA (directCliExitStep "codex:main:t3" true 4 (some 130) none 0 stC3).ptys
        "codex:main:t3" = some 5
    ∧ (5 : Nat) ≠ 4
    ∧ (writePty (directCliExitStep "codex:main:t3" true 4 (some 130) none 0 stC3)
          "codex:main:t3" "ls\r").events
        = (directCliExitStep "codex:main:t3" true 4 (some 130) none 0 stC3).events
          ++ [Ev.wrote 5 "ls\r"] :=
  ⟨(claim_C3_superseded_handle stC3 "codex:main:t3" 9 4 4 2 false (some 130) none 0 "ls\r").1
      (by decide) (by decide),
   (claim_C3_superseded_handle stC3 "codex:main:t3" 9 4 4 2 false (some 130) none 0 "ls\r").2
      (by decide) (by decide) (by decide)⟩

/-- C4 (amended): when a direct-CLI exit produces no replacement shell,
the id's registry record and listener flag are removed; the owner binding
ends up absent in the no-owner case, but after a failed replacement spawn
the owner binding is deliberately retained (the handler keeps the owner
for reuse by a later session start). -/
theorem claim_C4_no_replacement_cleanup (s : St) (id : String) (proc wc : Nat)
    (b : Bool) (ec sig : Option Int) (now : Nat)
    (hp : lookupA s.ptys id = some proc) :
    (lookupA s.owners id = none →
      lookupA (directCliExitStep id b proc ec sig now s).ptys id = none
      ∧ id ∉ (directCliExitStep id b proc ec sig now s).listeners
      ∧ lookupA (directCliExitStep id b proc ec sig now s).owners id = none)
    ∧ (lookupA s.owners id = some wc →
      lookupA (directCliExitStep id false proc ec sig now s).ptys id = none
      ∧ id ∉ (directCliExitStep id false proc ec sig now s).listeners
      ∧ lookupA (directCliExitStep id false proc ec sig now s).owners id = some wc) := by
  constructor
  · intro ho
    unfold directCliExitStep
    rw [cb_no_owner s id b ho]
    unfold directOnExit
    simp only []
    obtain ⟨hrp, hro, hrl, _, _⟩ := chain_registry s id id ec sig
      (if (clearPtyData (flushPtyData s id) id).isAppQuitting then FinishCause.app_quit
       else FinishCause.process_exit) now
    have hl : lookupA (maybeMarkProviderFinish (clearPtyData (flushPtyData s id) id) id ec sig
        (if (clearPtyData (flushPtyData s id) id).isAppQuitting then FinishCause.app_quit
         else FinishCause.process_exit) now).ptys id = some proc := by
      rw [hrp]; exact hp
    rw [hl]
    simp only []
    rw [if_neg (fun hne => hne rfl)]
    obtain ⟨g1, g2, g3⟩ := cleanup_fields false id ec sig
      (maybeMarkProviderFinish (clearPtyData (flushPtyData s id) id) id ec sig
        (if (clearPtyData (flushPtyData s id) id).isAppQuitting then FinishCause.app_quit
         else FinishCause.process_exit) now)
    refine ⟨g1, g2, ?_⟩
    rw [g3, (safeSendExit_fields _ id ec sig).2.1, hro]
    exact ho
  · intro ho
    unfold directCliExitStep
    rw [cb_spawn_fail s id wc ho]
    unfold directOnExit
    simp only []
    obtain ⟨hrp, hro, hrl, _, _⟩ := chain_registry (killPty s id) id id ec sig
      (if (clearPtyData (flushPtyData (killPty s id) id) id).isAppQuitting
       then FinishCause.app_quit else FinishCause.process_exit) now
    have hl : lookupA (maybeMarkProviderFinish (clearPtyData (flushPtyData (killPty s id) id) id)
        id ec sig
        (if (clearPtyData (flushPtyData (killPty s id) id) id).isAppQuitting
         then FinishCause.app_quit else FinishCause.process_exit) now).ptys id = none := by
      rw [hrp]; exact lookupA_eraseA s.ptys id
    rw [hl]
    simp only []
    obtain ⟨g1, g2, g3⟩ := cleanup_fields false id ec sig
      (maybeMarkProviderFinish (clearPtyData (flushPtyData (killPty s id) id) id) id ec sig
        (if (clearPtyData (flushPtyData (killPty s id) id) id).isAppQuitting
         then FinishCause.app_quit else FinishCause.process_exit) now)
    refine ⟨g1, g2, ?_⟩
    rw [g3, (safeSendExit_fields _ id ec sig).2.1, hro]
    exact ho

/-- Counterexample to C4 as stated: with an owner bound and the
replacement spawn failing, the exit path still leaves the owner binding
in the registry — the session id is not fully removed. -/
theorem claim_C4_cex :
    lookupA (directCliExitStep "codex:main:t1" false 5 (some 130) none 0 stC4).owners
      "codex:main:t1" = some 1 := by
  decide

theorem claim_C4_no_replacement_cleanup_witness :
    lookupA (directCliExitStep "codex:main:t1" false 5 (some 130) none 0 stC4).ptys
        "codex:main:t1" = none
    ∧ "codex:main:t1" ∉ (directCliExitStep "codex:main:t1" false 5 (some 130) none 0
        stC4).listeners :=
  ⟨((claim_C4_no_replacement_cleanup stC4 "codex:main:t1" 5 1 false (some 130) none 0
      (by decide)).2 (by decide)).1,
   ((claim_C4_no_replacement_cleanup stC4 "codex:main:t1" 5 1 false (some 130) none 0
      (by decide)).2 (by decide)).2.1⟩

/-! ## WSL matcher lemmas (C6, C7) -/

theorem matchCI_append (pfx rest : List Char) :
    matchCI (pfx.map lowerAscii) (pfx ++ rest) = some rest := by
  induction pfx with
  | nil => rfl
  | cons a as ih => simp [matchCI, ih]

theorem matchCI_some (lit : List Char) : ∀ (input r : List Char),
    matchCI lit input = some r → ∃ pre, input = pre ++ r ∧ pre.map lowerAscii = lit := by
  induction lit with
  | nil =>
    intro input r h
    refine ⟨[], ?_, rfl⟩
    simpa [matchCI] using h
  | cons p ps ih =>
    intro input r h
    cases input with
    | nil => simp [matchCI] at h
    | cons c cs =>
      by_cases hcp : lowerAscii c = p
      · rw [matchCI, if_pos hcp] at h
        obtain ⟨pre, hsplit, hmap⟩ := ih cs r h
        exact ⟨c :: pre, by simp [hsplit], by simp [hmap, hcp]⟩
      · rw [matchCI, if_neg hcp] at h
        exact absurd h (by simp)

theorem matchCI_wslDollar_of_localhost (pfx rest : List Char)
    (h : pfx.map lowerAscii = wslLocalhost) :
    matchCI wslDollar (pfx ++ rest) = none := by
  rcases pfx with _ | ⟨a, _ | ⟨b, _ | ⟨c, _ | ⟨d, tl⟩⟩⟩⟩ <;> simp [wslLocalhost] at h
  obtain ⟨ha, hb, hc, hd, _⟩ := h
  simp [matchCI, wslDollar, ha, hb, hc, hd]

theorem pre_no_slash {pre lit : List Char} (h : pre.map lowerAscii = lit)
    (hlit : ∀ c ∈ lit, isSlash c = false) : ∀ c ∈ pre, isSlash c = false := by
  intro c hc
  have hmem : lowerAscii c ∈ lit := h ▸ List.mem_map_of_mem lowerAscii hc
  by_contra hs
  have hs' : isSlash c = true := by
    cases h' : isSlash c
    · exact absurd h' hs
    · rfl
  have : c = '\\' ∨ c = '/' := by
    have := hs'
    unfold isSlash at this
    rcases Bool.or_eq_true_iff.mp this with h' | h'
    · exact Or.inl (by simpa using h')
    · exact Or.inr (by simpa using h')
  rcases this with rfl | rfl
  · have : lowerAscii '\\' = '\\' := by decide
    rw [this] at hmem
    exact absurd (hlit _ hmem) (by decide)
  · have : lowerAscii '/' = '/' := by decide
    rw [this] at hmem
    exact absurd (hlit _ hmem) (by decide)

/-- Splitting a concatenation at the first character satisfying `q` is
unique. -/
theorem split_at_first (q : Char → Bool) : ∀ (a c : List Char) (x y : Char) (b d : List Char),
    (∀ u ∈ a, q u = false) → (∀ u ∈ c, q u = false) → q x = true → q y = true →
    a ++ x :: b = c ++ y :: d → a = c ∧ x = y ∧ b = d := by
  intro a
  induction a with
  | nil =>
    intro c x y b d _ hc hx hy heq
    cases c with
    | nil => simpa using heq
    | cons c0 cs =>
      exfalso
      have : x = c0 := by simpa using congrArg (fun l => l.head?) heq
      subst this
      exact absurd (hc x (List.mem_cons_self _ _)) (by simp [hx])
  | cons a0 as ih =>
    intro c x y b d ha hc hx hy heq
    cases c with
    | nil =>
      exfalso
      have : a0 = y := by simpa using congrArg (fun l => l.head?) heq
      subst this
      exact absurd (ha a0 (List.mem_cons_self _ _)) (by simp [hy])
    | cons c0 cs =>
      have hpair : a0 = c0 ∧ as ++ x :: b = cs ++ y :: d := by simpa using heq
      obtain ⟨h0, htail⟩ := hpair
      obtain ⟨h1, h2, h3⟩ := ih cs x y b d
        (fun u hu => ha u (List.mem_cons_of_mem _ hu))
        (fun u hu => hc u (List.mem_cons_of_mem _ hu)) hx hy htail
      exact ⟨by rw [h0, h1], h2, h3⟩

theorem takeWhile_split (q : Char → Bool) (d r : List Char)
    (hd : ∀ c ∈ d, q c = true)
    (hr : r = [] ∨ ∃ r0 rr, r = r0 :: rr ∧ q r0 = false) :
    (d ++ r).takeWhile q = d ∧ (d ++ r).dropWhile q = r := by
  induction d with
  | nil =>
    rcases hr with rfl | ⟨r0, rr, rfl, hr0⟩
    · simp
    · simp [List.takeWhile, List.dropWhile, hr0]
  | cons x xs ih =>
    have hx : q x = true := hd x (List.mem_cons_self _ _)
    obtain ⟨ht, hdp⟩ := ih (fun c hc => hd c (List.mem_cons_of_mem _ hc))
    constructor
    · simp [List.takeWhile, hx, ht]
    · simp [List.dropWhile, hx, hdp]

/-- Any WSL UNC form — either slash direction, any ASCII case of the
`wsl$` / `wsl.localhost` prefix — matches, extracting the distro and the
remainder. -/
theorem wslUncMatch_decomp (s1 s2 s3 : Char) (pfx d r : List Char)
    (h1 : isSlash s1 = true) (h2 : isSlash s2 = true) (h3 : isSlash s3 = true)
    (hp : pfx.map lowerAscii = wslDollar ∨ pfx.map lowerAscii = wslLocalhost)
    (hd : d ≠ []) (hds : ∀ c ∈ d, isSlash c = false)
    (hr : r = [] ∨ ∃ r0 rr, r = r0 :: rr ∧ isSlash r0 = true) :
    wslUncMatch (s1 :: s2 :: (pfx ++ s3 :: (d ++ r))) = some (d, r) := by
  have hq : ∀ c ∈ d, (fun c => !(isSlash c)) c = true := by
    intro c hc; simp [hds c hc]
  have hqr : r = [] ∨ ∃ r0 rr, r = r0 :: rr ∧ (fun c => !(isSlash c)) r0 = false := by
    rcases hr with rfl | ⟨r0, rr, rfl, hr0⟩
    · exact Or.inl rfl
    · exact Or.inr ⟨r0, rr, rfl, by simp [hr0]⟩
  obtain ⟨htk, hdp⟩ := takeWhile_split (fun c => !(isSlash c)) d r hq hqr
  have hafter : wslAfterHost (s3 :: (d ++ r)) = some (d, r) := by
    have hform : wslAfterHost (s3 :: (d ++ r)) =
        if isSlash s3 = true then
          (if ((d ++ r).takeWhile (fun c => !(isSlash c))).isEmpty = true then none
           else some ((d ++ r).takeWhile (fun c => !(isSlash c)),
             (d ++ r).dropWhile (fun c => !(isSlash c))))
        else none := rfl
    rw [hform, if_pos h3, htk, hdp]
    rcases d with _ | ⟨d0, ds⟩
    · exact absurd rfl hd
    · simp
  have hform2 : wslUncMatch (s1 :: s2 :: (pfx ++ s3 :: (d ++ r))) =
      if (isSlash s1 && isSlash s2) = true then
        match matchCI wslDollar (pfx ++ s3 :: (d ++ r)) with
        | some tail => wslAfterHost tail
        | none =>
          match matchCI wslLocalhost (pfx ++ s3 :: (d ++ r)) with
          | some tail => wslAfterHost tail
          | none => none
      else none := rfl
  rw [hform2, h1, h2]
  rcases hp with hp | hp
  · have hm1 : matchCI wslDollar (pfx ++ s3 :: (d ++ r)) = some (s3 :: (d ++ r)) := by
      rw [← hp]; exact matchCI_append pfx _
    simp [hm1, hafter]
  · have hm1 : matchCI wslDollar (pfx ++ s3 :: (d ++ r)) = none :=
      matchCI_wslDollar_of_localhost pfx _ hp
    have hm2 : matchCI wslLocalhost (pfx ++ s3 :: (d ++ r)) = some (s3 :: (d ++ r)) := by
      rw [← hp]; exact matchCI_append pfx _
    simp [hm1, hm2, hafter]

/-- An ordinary UNC share — host neither `wsl$` nor `wsl.localhost` in any
letter case — never matches. -/
theorem wslUncMatch_unc_share (host rest : List Char)
    (hhs : ∀ c ∈ host, isSlash c = false)
    (h1 : host.map lowerAscii ≠ wslDollar) (h2 : host.map lowerAscii ≠ wslLocalhost)
    (hr : rest = [] ∨ ∃ r0 rr, rest = r0 :: rr ∧ isSlash r0 = true) :
    wslUncMatch ('\\' :: '\\' :: (host ++ rest)) = none := by
  have key : ∀ lit : List Char, (lit = wslDollar ∨ lit = wslLocalhost) →
      ∀ tail, matchCI lit (host ++ rest) = some tail → wslAfterHost tail = none := by
    intro lit hlit tail hm
    obtain ⟨pre, hsplit, hmap⟩ := matchCI_some lit _ _ hm
    have hpres : ∀ c ∈ pre, isSlash c = false := by
      refine pre_no_slash hmap ?_
      rcases hlit with rfl | rfl <;> decide
    rcases tail with _ | ⟨t0, ts⟩
    · rfl
    · by_cases ht0 : isSlash t0 = true
      · exfalso
        rcases hr with rfl | ⟨r0, rr, rfl, hr0⟩
        · have hmem : t0 ∈ host := by
            rw [List.append_nil] at hsplit
            rw [hsplit]
            exact List.mem_append.mpr (Or.inr (List.mem_cons_self _ _))
          exact absurd (hhs t0 hmem) (by simp [ht0])
        · obtain ⟨hpre_eq, _, _⟩ :=
            split_at_first isSlash host pre r0 t0 rr ts hhs hpres hr0 ht0 hsplit
          rcases hlit with rfl | rfl
          · exact h1 (by rw [hpre_eq]; exact hmap)
          · exact h2 (by rw [hpre_eq]; exact hmap)
      · have hform : wslAfterHost (t0 :: ts) =
            if isSlash t0 = true then
              (if (ts.takeWhile (fun c => !(isSlash c))).isEmpty = true then none
               else some (ts.takeWhile (fun c => !(isSlash c)),
                 ts.dropWhile (fun c => !(isSlash c))))
            else none := rfl
        rw [hform, if_neg ht0]
  have hform2 : wslUncMatch ('\\' :: '\\' :: (host ++ rest)) =
      match matchCI wslDollar (host ++ rest) with
      | some tail => wslAfterHost tail
      | none =>
        match matchCI wslLocalhost (host ++ rest) with
        | some tail => wslAfterHost tail
        | none => none := rfl
  rw [hform2]
  rcases hm1 : matchCI wslDollar (host ++ rest) with _ | tail
  · rcases hm2 : matchCI wslLocalhost (host ++ rest) with _ | tail2
    · simp [hm2]
    · simp [hm2, key wslLocalhost (Or.inr rfl) tail2 hm2]
  · simp [key wslDollar (Or.inl rfl) tail hm1]

/-- Counterexample to C7 as stated: the round trip is not the identity for
every absolute POSIX path — a backslash in the path comes back as `/`,
since the conversion to UNC form maps `/` to `\` and the way back maps
every `\` to `/`. -/
theorem claim_C7_cex :
    toWslPosixPath? (toWindowsUncPath "Ubuntu" "/a\\b") ≠ some "/a\\b" := by
  decide

/-- C7 (amended): for every non-empty distro name containing no slash or
backslash and every absolute POSIX path containing no backslash,
converting the pair to a Windows UNC path with `toWindowsUncPath` and
converting back with `toWslPosixPath` yields the original POSIX path. -/
theorem claim_C7_roundtrip (distro posix : String)
    (hd : distro.data ≠ []) (hds : ∀ c ∈ distro.data, isSlash c = false)
    (hp : posix.data.head? = some '/') (hnb : '\\' ∉ posix.data) :
    toWslPosixPath? (toWindowsUncPath distro posix) = some posix := by
  obtain ⟨t, hpt⟩ : ∃ t, posix.data = '/' :: t := by
    rcases hcase : posix.data with _ | ⟨c0, t⟩
    · rw [hcase] at hp; simp at hp
    · rw [hcase] at hp
      simp only [List.head?_cons, Option.some.injEq] at hp
      exact ⟨t, by rw [hp]⟩
  have hdata : (toWindowsUncPath distro posix).data
      = '\\' :: '\\' :: (['w', 's', 'l', '$']
          ++ '\\' :: (distro.data
            ++ posix.data.map (fun c => if c = '/' then '\\' else c))) := by
    show ("\\\\wsl$\\" ++ distro
        ++ String.mk (posix.data.map (fun c => if c = '/' then '\\' else c))).data = _
    rw [String.data_append, String.data_append]
    simp
  have hrtail : posix.data.map (fun c => if c = '/' then '\\' else c) = [] ∨
      ∃ r0 rr, posix.data.map (fun c => if c = '/' then '\\' else c) = r0 :: rr
        ∧ isSlash r0 = true := by
    refine Or.inr ⟨'\\', t.map (fun c => if c = '/' then '\\' else c), ?_, by decide⟩
    rw [hpt]
    rfl
  have hmatch := wslUncMatch_decomp '\\' '\\' '\\' ['w', 's', 'l', '$'] distro.data
    (posix.data.map (fun c => if c = '/' then '\\' else c))
    (by decide) (by decide) (by decide) (Or.inl (by decide)) hd hds hrtail
  have hback : (posix.data.map (fun c => if c = '/' then '\\' else c)).map
      (fun c => if c = '\\' then '/' else c) = posix.data := by
    rw [List.map_map]
    have hpt2 : ∀ c ∈ posix.data,
        ((fun c => if c = '\\' then '/' else c) ∘ (fun c => if c = '/' then '\\' else c)) c
          = c := by
      intro c hc
      by_cases h1 : c = '/'
      · simp [h1]
      · have h2 : c ≠ '\\' := fun h => hnb (h ▸ hc)
        simp [h1, h2]
    calc posix.data.map
          ((fun c => if c = '\\' then '/' else c) ∘ (fun c => if c = '/' then '\\' else c))
        = posix.data.map id := List.map_congr_left hpt2
      _ = posix.data := List.map_id posix.data
  have hne : (posix.data.map (fun c => if c = '/' then '\\' else c)).map
      (fun c => if c = '\\' then '/' else c) ≠ [] := by
    rw [hback, hpt]
    simp
  unfold toWslPosixPath?
  rw [hdata, hmatch]
  simp only [Option.map_some']
  rw [if_neg (by simpa using hne)]
  rw [hback]

theorem claim_C7_roundtrip_witness :
    toWslPosixPath? (toWindowsUncPath "Ubuntu" "/home/user/project")
      = some "/home/user/project" :=
  claim_C7_roundtrip "Ubuntu" "/home/user/project" (by decide) (by decide) (by decide)
    (by decide)

/-- C6: the WSL resolver classifies every `\\wsl$\<distro>\...` and
`\\wsl.localhost\<distro>\...` form identically across either slash
direction and any ASCII letter case of the prefix — it is recognised as
WSL, and it yields the same distro and the same POSIX path as the
canonical backslash form — and it never classifies drive-letter or other
non-slash-prefixed paths, POSIX paths, or ordinary UNC shares as WSL. -/
theorem claim_C6_wsl_classification (s1 s2 s3 c0 : Char)
    (pfx d r t host rest : List Char) :
    (isSlash s1 = true → isSlash s2 = true → isSlash s3 = true →
      (pfx.map lowerAscii = wslDollar ∨ pfx.map lowerAscii = wslLocalhost) →
      d ≠ [] → (∀ c ∈ d, isSlash c = false) →
      (r = [] ∨ ∃ r0 rr, r = r0 :: rr ∧ isSlash r0 = true) →
      isWslPath (String.mk (s1 :: s2 :: (pfx ++ s3 :: (d ++ r)))) = true
      ∧ getWslDistro (String.mk (s1 :: s2 :: (pfx ++ s3 :: (d ++ r))))
          = some (String.mk d)
      ∧ getWslDistro (String.mk (s1 :: s2 :: (pfx ++ s3 :: (d ++ r))))
          = getWslDistro (String.mk ('\\' :: '\\' ::
              (pfx.map lowerAscii ++ '\\' :: (d ++ r))))
      ∧ toWslPosixPath? (String.mk (s1 :: s2 :: (pfx ++ s3 :: (d ++ r))))
          = toWslPosixPath? (String.mk ('\\' :: '\\' ::
              (pfx.map lowerAscii ++ '\\' :: (d ++ r)))))
    ∧ (isSlash c0 = false → isWslPath (String.mk (c0 :: t)) = false)
    ∧ (isSlash c0 = false → isWslPath (String.mk ('/' :: c0 :: t)) = false)
    ∧ ((∀ c ∈ host, isSlash c = false) →
        host.map lowerAscii ≠ wslDollar → host.map lowerAscii ≠ wslLocalhost →
        (rest = [] ∨ ∃ r0 rr, rest = r0 :: rr ∧ isSlash r0 = true) →
        isWslPath (String.mk ('\\' :: '\\' :: (host ++ rest))) = false) := by
  refine ⟨?_, ?_, ?_, ?_⟩
  · intro h1 h2 h3 hp hd hds hr
    have hv := wslUncMatch_decomp s1 s2 s3 pfx d r h1 h2 h3 hp hd hds hr
    have hlit : (pfx.map lowerAscii).map lowerAscii = pfx.map lowerAscii := by
      rcases hp with hp | hp <;> rw [hp] <;> decide
    have hc := wslUncMatch_decomp '\\' '\\' '\\' (pfx.map lowerAscii) d r
      (by decide) (by decide) (by decide) (by rw [hlit]; exact hp) hd hds hr
    exact ⟨by simp [isWslPath, hv], by simp [getWslDistro, hv],
      by simp [getWslDistro, hv, hc], by simp [toWslPosixPath?, hv, hc]⟩
  · intro h
    cases t with
    | nil => rfl
    | cons c1 t' => simp [isWslPath, wslUncMatch, h]
  · intro h
    simp [isWslPath, wslUncMatch, h]
  · intro hhs hn1 hn2 hrr
    have hnone := wslUncMatch_unc_share host rest hhs hn1 hn2 hrr
    simp [isWslPath, hnone]

theorem claim_C6_wsl_classification_witness :
    isWslPath (String.mk ('/' :: '/' ::
        ("WSL.LocalHost".data ++ '/' :: ("Ubuntu".data ++ "/home".data)))) = true
    ∧ getWslDistro (String.mk ('/' :: '/' ::
        ("WSL.LocalHost".data ++ '/' :: ("Ubuntu".data ++ "/home".data))))
      = getWslDistro (String.mk ('\\' :: '\\' ::
        ("WSL.LocalHost".data.map lowerAscii ++ '\\' :: ("Ubuntu".data ++ "/home".data))))
    ∧ toWslPosixPath? (String.mk ('/' :: '/' ::
        ("WSL.LocalHost".data ++ '/' :: ("Ubuntu".data ++ "/home".data))))
      = toWslPosixPath? (String.mk ('\\' :: '\\' ::
        ("WSL.LocalHost".data.map lowerAscii ++ '\\' :: ("Ubuntu".data ++ "/home".data))))
    ∧ isWslPath (String.mk ('C' :: ":\\Users".data)) = false
    ∧ isWslPath (String.mk ('/' :: 'h' :: "ome/user".data)) = false
    ∧ isWslPath (String.mk ('\\' :: '\\' :: ("server".data ++ "\\share".data))) = false :=
  have hmain := claim_C6_wsl_classification '/' '/' '/' 'h'
    "WSL.LocalHost".data "Ubuntu".data "/home".data "ome/user".data
    "server".data "\\share".data
  have ha := hmain.1 (by decide) (by decide) (by decide) (Or.inr (by decide)) (by decide)
    (by decide) (Or.inr ⟨'/', "home".data, rfl, by decide⟩)
  have hd := hmain.2.2.2 (by decide) (by decide) (by decide)
    (Or.inr ⟨'\\', "share".data, rfl, by decide⟩)
  ⟨ha.1, ha.2.2.1, ha.2.2.2,
   (claim_C6_wsl_classification '/' '/' '/' 'C'
      "WSL.LocalHost".data "Ubuntu".data "/home".data ":\\Users".data
      "server".data "\\share".data).2.1 (by decide),
   hmain.2.2.1 (by decide), hd⟩

/-- Inside single quotes, the `'` → `'\''` escape parses back to the
original characters: consuming `escSq w` followed by a closing quote
appends exactly `w` to the current word and returns to unquoted mode. -/
theorem shSplitAux_escSq (w : List Char) : ∀ (cur : List Char) (acc : List (List Char))
    (r : List Char),
    shSplitAux ShMode.squote (some cur) acc (escSq w ++ '\'' :: r)
      = shSplitAux ShMode.norm (some (cur ++ w)) acc r := by
  induction w with
  | nil => intro cur acc r; simp [escSq, shSplitAux]
  | cons c cs ih =>
    intro cur acc r
    by_cases hc : c = '\''
    · subst hc
      have step : shSplitAux ShMode.squote (some cur) acc (escSq ('\'' :: cs) ++ '\'' :: r)
          = shSplitAux ShMode.squote (some (cur ++ ['\''])) acc (escSq cs ++ '\'' :: r) := rfl
      rw [step, ih]
      simp
    · have hesc : escSq (c :: cs) = c :: escSq cs := by simp [escSq, hc]
      rw [hesc]
      have step : shSplitAux ShMode.squote (some cur) acc (c :: (escSq cs ++ '\'' :: r))
          = shSplitAux ShMode.squote (some (cur ++ [c])) acc (escSq cs ++ '\'' :: r) := by
        simp only [shSplitAux]
        rw [if_neg hc]
        simp only [Option.getD_some]
      rw [List.cons_append, step, ih]
      simp

/-- C9: quoting a token by single-quote wrapping with `'\''` for embedded
single quotes makes it survive POSIX shell parsing as exactly one word
equal to the original token — embedded metacharacters (quotes, semicolons,
backticks, `$`) cannot alter command structure. This holds both for the
modelled `quoteShellArg` and for the escape step `wslExec` applies before
embedding a command in `sh -c '...'`. -/
theorem claim_C9_quoting_preserves_token (s : String) :
    shFields (quoteShellArg s).data = some [s.data]
    ∧ shFields ('\'' :: (wslEscapeCmd s).data ++ ['\'']) = some [s.data] := by
  have key : ∀ w : List Char, shFields ('\'' :: escSq w ++ ['\'']) = some [w] := by
    intro w
    unfold shFields
    have h1 : shSplitAux ShMode.norm none [] ('\'' :: escSq w ++ ['\''])
        = shSplitAux ShMode.squote (some []) [] (escSq w ++ '\'' :: []) := rfl
    rw [h1, shSplitAux_escSq w [] [] []]
    simp [shSplitAux]
  constructor
  · exact key s.data
  · exact key s.data

/-- C8: the provider invocation builder emits tokens in the fixed order —
resume-flag tokens (only when resuming with a supported flag), then
default args, then auto-approve flag tokens (only when requested with a
supported flag), then the initial-prompt flag tokens with the trimmed
prompt as the final token (only when the provider does not use keystroke
injection); under keystroke injection the prompt segment is omitted; and
the claim's example (resume with "resume --last", auto-approve "--yes",
prompt "hi there") yields `resume --last --yes` with the prompt as final
token. -/
theorem claim_C8_cli_arg_order (o : ProviderCliOpts) :
    buildProviderCliArgs o =
      (if o.resume then (o.resumeFlag.map parseShellArgs).getD [] else [])
      ++ o.defaultArgs
      ++ (if o.autoApprove then (o.autoApproveFlag.map parseShellArgs).getD [] else [])
      ++ (match o.initialPromptFlag, o.initialPrompt with
          | some pf, some pr =>
            if !o.useKeystrokeInjection ∧ strTrim pr ≠ "" then
              parseShellArgs pf ++ [strTrim pr]
            else []
          | _, _ => [])
    ∧ (o.useKeystrokeInjection = true →
        buildProviderCliArgs o =
          (if o.resume then (o.resumeFlag.map parseShellArgs).getD [] else [])
          ++ o.defaultArgs
          ++ (if o.autoApprove then (o.autoApproveFlag.map parseShellArgs).getD [] else []))
    ∧ buildProviderCliArgs
        { resume := true
          resumeFlag := some "resume --last"
          defaultArgs := []
          autoApprove := true
          autoApproveFlag := some "--yes"
          initialPrompt := some "hi there"
          initialPromptFlag := some ""
          useKeystrokeInjection := false }
      = ["resume", "--last", "--yes", "hi there"] := by
  obtain ⟨res, rflag, da, aa, aflag, ip, ipf, ki⟩ := o
  refine ⟨?_, ?_, ?_⟩
  · cases rflag <;> cases aflag <;> cases res <;> cases aa <;>
      simp [buildProviderCliArgs]
  · intro hki
    subst hki
    cases rflag <;> cases aflag <;> cases ip <;> cases ipf <;> cases res <;> cases aa <;>
      simp [buildProviderCliArgs]
  · decide

theorem claim_C8_cli_arg_order_witness :
    buildProviderCliArgs
        { resume := true
          resumeFlag := some "resume --last"
          defaultArgs := ["--model", "gpt-5"]
          autoApprove := false
          autoApproveFlag := some "--yes"
          initialPrompt := some "hi there"
          initialPromptFlag := some "--prompt"
          useKeystrokeInjection := true }
      = (if true then ((some "resume --last").map parseShellArgs).getD [] else [])
        ++ ["--model", "gpt-5"]
        ++ (if false then ((some "--yes").map parseShellArgs).getD [] else []) :=
  (claim_C8_cli_arg_order
    { resume := true
      resumeFlag := some "resume --last"
      defaultArgs := ["--model", "gpt-5"]
      autoApprove := false
      autoApproveFlag := some "--yes"
      initialPrompt := some "hi there"
      initialPromptFlag := some "--prompt"
      useKeystrokeInjection := true }).2.1 rfl

theorem claim_C5_null_exit_code_witness :
    (maybeMarkProviderFinish stC5 "claude:main:t1" none none
        FinishCause.owner_destroyed 9).events = stC5.events
    ∧ lookupA (maybeMarkProviderFinish stC5 "claude:main:t1" none none
        FinishCause.owner_destroyed 9).providerPtyTimers "claude:t1" = none :=
  ⟨(claim_C5_null_exit_code stC5 "claude:main:t1" none FinishCause.owner_destroyed 9
      "claude" "claude:t1" (by decide) (by decide)).1,
   (claim_C5_null_exit_code stC5 "claude:main:t1" none FinishCause.owner_destroyed 9
      "claude" "claude:t1" (by decide) (by decide)).2.1⟩

end Emdash
